import Mathlib

/-!
Shallow embedding of `vault_checker.py` (Bitwarden vault cleanup).

The Python program works on a decoded JSON document: a dict with an
`"items"` list, each item a dict with `id`, `name` and optionally a
`login` sub-dict (`username`, `password`, `uris`).  Python dicts
distinguish an absent key from a key whose value is `None`, so optional
fields are modelled as `Option (Option String)`: `none` = key absent,
`some none` = key present with value `null`, `some (some s)` = string.

Raised exceptions (KeyError / IndexError) are modelled with the `Res`
result type below; Python's in-place list mutation is modelled by
explicit value passing, with `list.remove` (remove first `==`-equal
occurrence) and the live-iteration semantics of `for` loops reproduced
exactly.
-/

namespace VaultChecker

/-- Outcome of a Python computation: a value, or a raised exception
(KeyError, IndexError, ...).  The exception payload is irrelevant to the
program, which never catches anything. -/
inductive Res (α : Type) : Type where
  | ok  : α → Res α
  | exn : Res α
deriving DecidableEq, Repr

/-- Whether a computation returned normally. -/
def Res.isOk {α : Type} : Res α → Bool
  | .ok _ => true
  | .exn => false

/-- One entry of a `login.uris` list.  `uri` is the `"uri"` key
(absent / null / string); `matchType` stands for the other attributes a
Bitwarden URI entry can carry (its `match` field), so that two entries
with the same `uri` string can still differ as dict values. -/
structure Uri where
  uri : Option (Option String)
  matchType : Option Int
deriving DecidableEq, Repr

/-- The `login` sub-dict of an item. -/
structure Login where
  username : Option (Option String)
  password : Option (Option String)
  uris : Option (List Uri)
deriving DecidableEq, Repr

/-- A vault item.  `id` and `name` are always present (the program
accesses them unguarded and the data model guarantees them). -/
structure Item where
  id : String
  name : String
  login : Option Login
deriving DecidableEq, Repr

/-- The document: a dict with an `"items"` list. -/
structure Document where
  items : List Item
deriving DecidableEq, Repr

/-- Python `list.remove(a)`: delete the first occurrence that compares
`==`-equal (structural equality on dicts).  The program only ever calls
it with a value that is present in the list, where this total version
agrees with Python (which would raise ValueError on a missing value). -/
def removeFirst {α : Type} [DecidableEq α] : List α → α → List α
  | [], _ => []
  | x :: xs, a => if x = a then xs else x :: removeFirst xs a

/-- The loop `for item in data["items"]: if cond(item): data["items"].remove(item)`
shared by `remove_userless_item` and `remove_passwordless_item`.
A Python list iterator yields `l[k]` and advances `k`, re-checking `k`
against the *current* length each round, so removing the element at
index `k` makes the next round skip the element that slides into
index `k`.  The loop runs at most `initial length` rounds (`k` grows by
one each round and the length never grows), so that much fuel makes the
fuel-free and fuelled loops agree: when fuel hits 0 we have
`k = initial length ≥ current length` and the loop would stop anyway. -/
def pyFilterLoop.go (cond : Item → Res Bool) : Nat → Nat → List Item → Res (List Item)
  | 0, _, l => .ok l
  | fuel + 1, k, l =>
    if h : k < l.length then
      match cond (l.get ⟨k, h⟩) with
      | .exn => .exn
      | .ok true => pyFilterLoop.go cond fuel (k + 1) (removeFirst l (l.get ⟨k, h⟩))
      | .ok false => pyFilterLoop.go cond fuel (k + 1) l
    else .ok l

/-- See `pyFilterLoop.go`. -/
def pyFilterLoop (cond : Item → Res Bool) (l : List Item) : Res (List Item) :=
  pyFilterLoop.go cond l.length 0 l

/-- Condition of `remove_userless_item` (line 17):
`"login" in item and (item["login"]["username"] is None or "username" not in item["login"])`.
With no `login`, the conjunction short-circuits to False.  With `login`
present, `item["login"]["username"]` is evaluated *before* the
`"username" not in` guard, so a missing `username` key raises KeyError;
a non-None username makes both disjuncts False. -/
def userlessCond (item : Item) : Res Bool :=
  match item.login with
  | none => .ok false
  | some lg =>
    match lg.username with
    | none => .exn
    | some v => .ok (v = none)

/-- `remove_userless_item` (lines 14-20). -/
def remove_userless_item (d : Document) : Res Document :=
  match pyFilterLoop userlessCond d.items with
  | .exn => .exn
  | .ok l => .ok { items := l }

/-- Condition of `remove_passwordless_item` (line 26).  Python parses it as
`("login" in item and item["login"]["password"] is None) or ("password" not in item["login"])`:
with no `login` the left conjunct is False and the right disjunct
evaluates `item["login"]`, raising KeyError; with `login` present,
`item["login"]["password"]` raises KeyError when the key is absent, and
a non-None password makes the right disjunct False. -/
def passwordlessCond (item : Item) : Res Bool :=
  match item.login with
  | none => .exn
  | some lg =>
    match lg.password with
    | none => .exn
    | some v => .ok (v = none)

/-- `remove_passwordless_item` (lines 23-29). -/
def remove_passwordless_item (d : Document) : Res Document :=
  match pyFilterLoop passwordlessCond d.items with
  | .exn => .exn
  | .ok l => .ok { items := l }

/-- Truthiness of `uri.get("uri")` (line 37): `dict.get` returns `None`
for an absent key, and both `None` and the empty string are falsy. -/
def uriTruthy (u : Uri) : Bool :=
  match u.uri with
  | some (some s) => s ≠ ""
  | _ => false

/-- First phase of `remove_uriless_item` applied to one item
(lines 36-42): when the item has a `login` with a truthy (non-empty)
`uris` list, write back the sub-list of truthy entries and mark the item
for removal when that sub-list is empty; otherwise leave the item alone
and mark it.  Returns the (possibly mutated) item and its mark. -/
def normalizeUris (item : Item) : Item × Bool :=
  match item.login with
  | none => (item, true)
  | some lg =>
    match lg.uris with
    | none => (item, true)
    | some us =>
      if us.isEmpty then (item, true)
      else
        let us' := us.filter uriTruthy
        ({ item with login := some { lg with uris := some us' } }, us'.isEmpty)

/-- `remove_uriless_item` (lines 32-48): scan every item (no removal
during this loop), collecting, in order, references to the items marked
for removal; then, for each collected item, `data["items"].remove(item)`
deletes the first `==`-equal occurrence from the (already normalized)
list.  The collected references see the in-place URI normalization, so
they are the normalized values. -/
def remove_uriless_item (d : Document) : Document :=
  { items :=
      (((d.items.map normalizeUris).filter (fun p => p.2)).map (fun p => p.1)).foldl
        removeFirst ((d.items.map normalizeUris).map (fun p => p.1)) }

/-- Whether a (normalized) item value is one the uriless filter marks
for removal: no `login`, no `uris` key, or an empty `uris` list.  On the
output of `normalizeUris` this recovers the mark from the value alone,
which is what makes the value-equality based `list.remove` calls of
phase two hit exactly the marked items. -/
def isBadNorm (item : Item) : Bool :=
  match item.login with
  | none => true
  | some lg =>
    match lg.uris with
    | none => true
    | some us => us.isEmpty

/-- The whole filter stage of the pipeline driver (lines 91-100):
userless, then passwordless, then uriless, an exception in any stage
aborting the run. -/
def filterStage (d : Document) : Res Document :=
  match remove_userless_item d with
  | .exn => .exn
  | .ok d1 =>
    match remove_passwordless_item d1 with
    | .exn => .exn
    | .ok d2 => .ok (remove_uriless_item d2)

/-- `item["login"]["uris"][0]["uri"]` (line 58): KeyError when `login`,
`uris` or the entry's `uri` key is absent, IndexError when the list is
empty; the value may be `null`. -/
def firstUri (item : Item) : Res (Option String) :=
  match item.login with
  | none => .exn
  | some lg =>
    match lg.uris with
    | none => .exn
    | some [] => .exn
    | some (u :: _) =>
      match u.uri with
      | none => .exn
      | some v => .ok v

/-- `item["login"]["username"]` (line 59). -/
def getUsername (item : Item) : Res (Option String) :=
  match item.login with
  | none => .exn
  | some lg =>
    match lg.username with
    | none => .exn
    | some v => .ok v

/-- `item["login"]["password"]` (line 60). -/
def getPassword (item : Item) : Res (Option String) :=
  match item.login with
  | none => .exn
  | some lg =>
    match lg.password with
    | none => .exn
    | some v => .ok v

/-- An item on which every field access of the duplicate-finder
comprehension returns normally: `login` present with a non-empty `uris`
list whose head has a `uri` key, and `username` and `password` keys
present. -/
def comparableItem (it : Item) : Bool :=
  (firstUri it).isOk && (getUsername it).isOk && (getPassword it).isOk

/-- The condition of the comprehension in `find_items_with_duplicates`
(lines 57-60), with Python's left-to-right short-circuit evaluation:
`item != other_item` is *value* inequality on dicts and is tested first,
so no field is accessed when the two items are structurally equal. -/
def pairCond (a b : Item) : Res Bool :=
  if a = b then .ok false
  else
    match firstUri a with
    | .exn => .exn
    | .ok fa =>
      match firstUri b with
      | .exn => .exn
      | .ok fb =>
        if fa = fb then
          match getUsername a with
          | .exn => .exn
          | .ok na =>
            match getUsername b with
            | .exn => .exn
            | .ok nb =>
              if na = nb then
                match getPassword a with
                | .exn => .exn
                | .ok pa =>
                  match getPassword b with
                  | .exn => .exn
                  | .ok pb => .ok (pa = pb)
              else .ok false
        else .ok false

/-- The pair list the comprehension ranges over: `for item in
data["items"] for other_item in data["items"]`, row-major. -/
def allPairs (items : List Item) : List (Item × Item) :=
  items.flatMap (fun a => items.map (fun b => (a, b)))

/-- Left-to-right fallible filtering, the evaluation order of a Python
list comprehension: the first raised exception aborts the whole
comprehension. -/
def filterRes {α : Type} (p : α → Res Bool) : List α → Res (List α)
  | [] => .ok []
  | x :: xs =>
    match p x with
    | .exn => .exn
    | .ok b =>
      match filterRes p xs with
      | .exn => .exn
      | .ok rest => .ok (if b then x :: rest else rest)

/-- `find_items_with_duplicates` (lines 51-61): a single list
comprehension over ordered pairs of items; no statement in the body
assigns to `data` or `data["items"]`, so the document after the call is
the document before it — the second component records that "after"
document. -/
def find_items_with_duplicates (d : Document) : Res (List (Item × Item)) × Document :=
  (filterRes (fun p => pairCond p.1 p.2) (allPairs d.items), d)

/-- One insertion into a Python dict, modelled as an association list:
assigning to an existing key replaces its value in place (the key keeps
its original position), assigning to a fresh key appends it.  This is
exactly the insertion-order semantics of `dict` comprehensions. -/
def pyDictInsert {κ β : Type} [DecidableEq κ] (m : List (κ × β)) (k : κ) (v : β) :
    List (κ × β) :=
  if m.any (fun p => p.1 = k) then
    m.map (fun p => if p.1 = k then (k, v) else p)
  else m ++ [(k, v)]

/-- A Python dict built from a sequence of key/value pairs: keys keep
first-occurrence order, values are last-write-wins. -/
def pyDict {κ β : Type} [DecidableEq κ] (l : List (κ × β)) : List (κ × β) :=
  l.foldl (fun m p => pyDictInsert m p.1 p.2) []

/-- The dict key `uri["uri"]` of line 76.  The raw access raises on an
absent key; `mergeUris` only reaches the dedup after reading every
entry's `uri` key successfully (lines 68-69 perform the same accesses),
so defaulting the unreachable absent case to `none` (Python `None`, a
legal dict key for null-valued entries) is faithful. -/
def uriKey (u : Uri) : Option String :=
  u.uri.getD none

/-- Line 76: `list({uri["uri"]: uri for uri in uris}.values())` —
deduplicate a URI list by its `uri` string, keys in first-occurrence
order, last occurrence's entry winning. -/
def dedupByUri (l : List Uri) : List Uri :=
  (pyDict (l.map (fun u => (uriKey u, u)))).map (fun p => p.2)

/-- `[uri["uri"] for uri in uris]`: read each entry's `uri` key in
order, raising on the first entry whose key is absent. -/
def uriStringsOf : List Uri → Res (List (Option String))
  | [] => .ok []
  | u :: ut =>
    match u.uri, uriStringsOf ut with
    | some v, .ok rest => .ok (v :: rest)
    | _, _ => .exn

/-- Lines 68/69: `[uri["uri"] for uri in item["login"]["uris"]]` —
raises when `login` or `uris` is absent or any entry lacks a `uri` key. -/
def readUriStrings (item : Item) : Res (List (Option String)) :=
  match item.login with
  | none => .exn
  | some lg =>
    match lg.uris with
    | none => .exn
    | some us => uriStringsOf us

/-- Python `set.add`, on a set modelled as a duplicate-free list. -/
def setAdd (reg : List String) (id : String) : List String :=
  if id ∈ reg then reg else reg ++ [id]

/-- Result of one `merge_uris_of_items` call: the (possibly mutated)
first item, the merge registry afterwards, and whether the confirmation
prompt was shown (line 73 reached). -/
structure MergeRes where
  itemA : Item
  registry : List String
  prompted : Bool
deriving DecidableEq, Repr

/-- `merge_uris_of_items` (lines 64-81), with the process-global
`merged_items` set and the interactive answer passed explicitly.
If either id is already registered the body is skipped (no prompt, no
mutation).  Otherwise both URI lists are read (lines 68-69, may raise),
the prompt is shown, and on a yes answer A's `uris` becomes the
concatenation of A's and B's lists deduplicated by `uri` string and
B's id is added to the registry.  B is never mutated and nothing is
removed from any list. -/
def mergeUris (reg : List String) (ans : Bool) (a b : Item) : Res MergeRes :=
  if a.id ∈ reg ∨ b.id ∈ reg then .ok ⟨a, reg, false⟩
  else
    match readUriStrings a with
    | .exn => .exn
    | .ok _ =>
      match readUriStrings b with
      | .exn => .exn
      | .ok _ =>
        if ans then
          match a.login, b.login with
          | some la, some lb =>
            match la.uris, lb.uris with
            | some ua, some ub =>
              .ok ⟨{ a with login := some { la with uris := some (dedupByUri (ua ++ ub)) } },
                   setAdd reg b.id, true⟩
            | _, _ => .exn
          | _, _ => .exn
        else .ok ⟨a, reg, true⟩

/-- A `merge_uris_of_items(item_a, item_b)` call at the document level:
the driver passes references to `data["items"][i]` and
`data["items"][j]`, so mutating `item_a` updates position `i` of the
list.  The driver only ever calls it with items of the list, so
out-of-range indices map to an (unreachable) exception. -/
def mergeStepDoc (d : Document) (i j : Nat) (reg : List String) (ans : Bool) :
    Res (Document × List String × Bool) :=
  match d.items.get? i, d.items.get? j with
  | some a, some b =>
    match mergeUris reg ans a b with
    | .exn => .exn
    | .ok r => .ok ({ items := d.items.set i r.itemA }, r.registry, r.prompted)
  | _, _ => .exn

/-- The registry after a sequence of merge-resolver invocations
(driver lines 104-105), each call given its pair and its interactive
answer.  A raised exception aborts the run, freezing the registry. -/
def runMerges (reg : List String) : List (Item × Item × Bool) → List String
  | [] => reg
  | (a, b, ans) :: rest =>
    match mergeUris reg ans a b with
    | .exn => reg
    | .ok r => runMerges r.registry rest

/-! ### Concrete fixtures -/

/-- A valid URI entry. -/
def xUri : Uri := ⟨some (some "https://x.com"), none⟩

/-- An item with no `login` field at all, e.g. a secure note. -/
def noteItem : Item := ⟨"i0", "note", none⟩

/-- An item whose `login` dict lacks the `username` key. -/
def noUsernameKeyItem : Item :=
  ⟨"i1", "a", some ⟨none, some (some "p"), some [xUri]⟩⟩

/-- An item whose `login.username` is `null` but is otherwise complete. -/
def nullUserItem (id nm : String) : Item :=
  ⟨id, nm, some ⟨some none, some (some "p"), some [xUri]⟩⟩

/-- A fully-populated login item. -/
def dupX : Item :=
  ⟨"1", "n", some ⟨some (some "u"), some (some "p"), some [xUri]⟩⟩

/-- A document holding two structurally identical, fully-matching items
at two distinct positions. -/
def dupDoc : Document := ⟨[dupX, dupX]⟩

/-- An item agreeing with `dupX` on first URI, username and password but
differing in `id` and `name` (so the two are value-unequal). -/
def dupY : Item :=
  ⟨"2", "m", some ⟨some (some "u"), some (some "p"), some [xUri]⟩⟩

/-- A document with two adjacent items whose usernames are both `null`. -/
def idemDoc : Document := ⟨[nullUserItem "a" "A", nullUserItem "b" "B"]⟩

/-- What one pass of the filter stage leaves of `idemDoc`: the removal
of the first item during iteration slides the second into the slot the
iterator has already passed. -/
def idemDoc1 : Document := ⟨[nullUserItem "b" "B"]⟩

/-- Merge fixture: A's URI list — one entry, `matchType 1`. -/
def cexUa : List Uri := [⟨some (some "https://x.com"), some 1⟩]

/-- Merge fixture: B's URI list — the same URI string, `matchType 2`,
so A's and B's copies conflict. -/
def cexUb : List Uri := [⟨some (some "https://x.com"), some 2⟩]

/-- Merge fixture: A's login. -/
def cexLa : Login := ⟨some (some "u"), some (some "p"), some cexUa⟩

/-- Merge fixture: B's login. -/
def cexLb : Login := ⟨some (some "u"), some (some "p"), some cexUb⟩

/-- Merge fixture: the surviving item A. -/
def cexA : Item := ⟨"a", "A", some cexLa⟩

/-- Merge fixture: the losing item B. -/
def cexB : Item := ⟨"b", "B", some cexLb⟩

/-! ### Supporting lemmas -/

lemma set_get?_self : ∀ (l : List Item) (i : Nat) (a : Item),
    l.get? i = some a → l.set i a = l
  | [], i, a, h => by simp at h
  | x :: xs, 0, a, h => by
    simp only [List.get?] at h
    cases h
    rfl
  | x :: xs, i + 1, a, h => by
    simp only [List.get?] at h
    simp only [List.set, List.cons.injEq, true_and]
    exact set_get?_self xs i a h

lemma mergeUris_false_frame (reg : List String) (a b : Item) (r : MergeRes)
    (h : mergeUris reg false a b = Res.ok r) : r.itemA = a ∧ r.registry = reg := by
  unfold mergeUris at h
  split at h
  · cases h
    exact ⟨rfl, rfl⟩
  · split at h
    · exact absurd h (by simp)
    · split at h
      · exact absurd h (by simp)
      · cases h
        exact ⟨rfl, rfl⟩

lemma subset_setAdd (reg : List String) (id : String) : reg ⊆ setAdd reg id := by
  unfold setAdd
  split
  · exact fun x hx => hx
  · exact fun x hx => List.mem_append_left _ hx

lemma mergeUris_registry_mono (reg : List String) (ans : Bool) (a b : Item)
    (r : MergeRes) (h : mergeUris reg ans a b = Res.ok r) : reg ⊆ r.registry := by
  unfold mergeUris at h
  split at h
  · cases h
    exact fun x hx => hx
  · split at h
    · exact absurd h (by simp)
    · split at h
      · exact absurd h (by simp)
      · split at h
        · split at h
          · split at h
            · cases h
              exact subset_setAdd reg b.id
            · exact absurd h (by simp)
          · exact absurd h (by simp)
        · cases h
          exact fun x hx => hx

lemma runMerges_mono (calls : List (Item × Item × Bool)) (reg : List String) :
    reg ⊆ runMerges reg calls := by
  induction calls generalizing reg with
  | nil => exact fun x hx => hx
  | cons c rest ih =>
    obtain ⟨a, b, ans⟩ := c
    show reg ⊆ runMerges reg ((a, b, ans) :: rest)
    unfold runMerges
    split
    · exact fun x hx => hx
    · next r heq => exact fun x hx => ih r.registry (mergeUris_registry_mono reg ans a b r heq hx)

lemma removeFirst_cons_of_ne {α : Type} [DecidableEq α] (x : α) (xs : List α) (a : α)
    (h : x ≠ a) : removeFirst (x :: xs) a = x :: removeFirst xs a := by
  simp [removeFirst, h]

lemma foldl_removeFirst_cons {α : Type} [DecidableEq α] (x : α) (xs vs : List α)
    (h : ∀ v ∈ vs, v ≠ x) :
    List.foldl removeFirst (x :: xs) vs = x :: List.foldl removeFirst xs vs := by
  induction vs generalizing xs with
  | nil => rfl
  | cons v vt ih =>
    simp only [List.foldl_cons]
    rw [removeFirst_cons_of_ne x xs v (fun he => h v (by simp) he.symm)]
    exact ih (removeFirst xs v) (fun w hw => h w (by simp [hw]))

/-- Removing, from `l`, one `==`-equal occurrence for each member of
`l.filter p` (in order) leaves exactly `l.filter (not p)`. -/
lemma foldl_removeFirst_filter {α : Type} [DecidableEq α] (p : α → Bool) (l : List α) :
    List.foldl removeFirst l (l.filter p) = l.filter (fun x => !(p x)) := by
  induction l with
  | nil => rfl
  | cons x xs ih =>
    by_cases hp : p x = true
    · rw [List.filter_cons_of_pos hp, List.filter_cons_of_neg (by simp [hp])]
      simp only [List.foldl_cons]
      have hrx : removeFirst (x :: xs) x = xs := by simp [removeFirst]
      rw [hrx]
      exact ih
    · rw [List.filter_cons_of_neg hp, List.filter_cons_of_pos (by simp [hp])]
      rw [foldl_removeFirst_cons x xs (xs.filter p) (fun v hv heq => by
        rw [heq] at hv
        exact hp (List.mem_filter.mp hv).2)]
      rw [ih]

lemma normalize_flag (item : Item) :
    (normalizeUris item).2 = isBadNorm (normalizeUris item).1 := by
  obtain ⟨id, nm, lg⟩ := item
  cases lg with
  | none => rfl
  | some lg =>
    obtain ⟨un, pw, us⟩ := lg
    cases us with
    | none => rfl
    | some us =>
      by_cases he : us.isEmpty
      · simp [normalizeUris, isBadNorm, he]
      · simp [normalizeUris, isBadNorm, he]

lemma normalize_good (orig : Item)
    (h : isBadNorm (normalizeUris orig).1 = false) :
    ∃ lg us, (normalizeUris orig).1.login = some lg ∧ lg.uris = some us ∧
      us ≠ [] ∧ ∀ u ∈ us, uriTruthy u = true := by
  obtain ⟨id, nm, lg⟩ := orig
  cases lg with
  | none => simp [normalizeUris, isBadNorm] at h
  | some lg =>
    obtain ⟨un, pw, us⟩ := lg
    cases us with
    | none => simp [normalizeUris, isBadNorm] at h
    | some us =>
      by_cases he : us.isEmpty
      · simp [normalizeUris, isBadNorm, he] at h
      · have hnorm : normalizeUris ⟨id, nm, some ⟨un, pw, some us⟩⟩ =
            (⟨id, nm, some ⟨un, pw, some (us.filter uriTruthy)⟩⟩,
             (us.filter uriTruthy).isEmpty) := by
          simp [normalizeUris, he]
        rw [hnorm] at h ⊢
        have hne : us.filter uriTruthy ≠ [] := fun heq => by
          rw [show isBadNorm ⟨id, nm, some ⟨un, pw, some (us.filter uriTruthy)⟩⟩ =
              (us.filter uriTruthy).isEmpty from rfl, heq] at h
          simp at h
        exact ⟨_, us.filter uriTruthy, rfl, rfl, hne,
          fun u hu => (List.mem_filter.mp hu).2⟩

lemma Res.isOk_iff {α : Type} (r : Res α) : r.isOk = true ↔ ∃ v, r = Res.ok v := by
  cases r <;> simp [Res.isOk]

lemma comparable_destruct (it : Item) (h : comparableItem it = true) :
    (∃ v, firstUri it = Res.ok v) ∧ (∃ v, getUsername it = Res.ok v) ∧
      (∃ v, getPassword it = Res.ok v) := by
  unfold comparableItem at h
  simp only [Bool.and_eq_true] at h
  exact ⟨(Res.isOk_iff _).mp h.1.1, (Res.isOk_iff _).mp h.1.2, (Res.isOk_iff _).mp h.2⟩

lemma pairCond_ne_exn (a b : Item) (hca : comparableItem a = true)
    (hcb : comparableItem b = true) : pairCond a b ≠ Res.exn := by
  obtain ⟨⟨fa, hfa⟩, ⟨na, hna⟩, ⟨pa, hpa⟩⟩ := comparable_destruct a hca
  obtain ⟨⟨fb, hfb⟩, ⟨nb, hnb⟩, ⟨pb, hpb⟩⟩ := comparable_destruct b hcb
  unfold pairCond
  by_cases hab : a = b
  · simp [hab]
  · by_cases h1 : fa = fb
    · by_cases h2 : na = nb
      · simp [hab, hfa, hfb, hna, hnb, hpa, hpb, h1, h2]
      · simp [hab, hfa, hfb, hna, hnb, h1, h2]
    · simp [hab, hfa, hfb, h1]

lemma pairCond_eq_true (a b : Item) (hab : a ≠ b) (fa na pa : Option String)
    (hfa : firstUri a = Res.ok fa) (hfb : firstUri b = Res.ok fa)
    (hna : getUsername a = Res.ok na) (hnb : getUsername b = Res.ok na)
    (hpa : getPassword a = Res.ok pa) (hpb : getPassword b = Res.ok pa) :
    pairCond a b = Res.ok true := by
  unfold pairCond
  simp [hab, hfa, hfb, hna, hnb, hpa, hpb]

lemma filterRes_ok_mem {α : Type} (p : α → Res Bool) (l : List α)
    (hall : ∀ x ∈ l, p x ≠ Res.exn) :
    ∃ L, filterRes p l = Res.ok L ∧ ∀ x ∈ l, p x = Res.ok true → x ∈ L := by
  induction l with
  | nil => exact ⟨[], rfl, by simp⟩
  | cons x xs ih =>
    obtain ⟨L, hL, hmem⟩ := ih (fun y hy => hall y (by simp [hy]))
    cases hpx : p x with
    | exn => exact absurd hpx (hall x (by simp))
    | ok b =>
      refine ⟨if b then x :: L else L, ?_, ?_⟩
      · simp [filterRes, hpx, hL]
      · intro y hy hpy
        rcases List.mem_cons.mp hy with rfl | hmem'
        · rw [hpy] at hpx
          cases hpx
          simp
        · have hyL := hmem y hmem' hpy
          cases b <;> simp [hyL]

lemma mem_allPairs (items : List Item) (a b : Item) (ha : a ∈ items)
    (hb : b ∈ items) : (a, b) ∈ allPairs items := by
  unfold allPairs
  rw [List.mem_flatMap]
  exact ⟨a, ha, List.mem_map.mpr ⟨b, hb, rfl⟩⟩

/-- The uriless filter, in normal form: normalize every item's URI list,
then keep exactly the items whose normalized value is not marked. -/
lemma remove_uriless_eq (d : Document) :
    (remove_uriless_item d).items =
      ((d.items.map normalizeUris).map (fun p => p.1)).filter
        (fun x => !(isBadNorm x)) := by
  show (((d.items.map normalizeUris).filter (fun p => p.2)).map (fun p => p.1)).foldl
      removeFirst ((d.items.map normalizeUris).map (fun p => p.1)) = _
  have h1 : (d.items.map normalizeUris).filter (fun p => p.2)
      = (d.items.map normalizeUris).filter (fun p => isBadNorm p.1) :=
    List.filter_congr (fun p hp => by
      obtain ⟨orig, _, rfl⟩ := List.mem_map.mp hp
      exact normalize_flag orig)
  have h2 : ((d.items.map normalizeUris).filter (fun p => isBadNorm p.1)).map (fun p => p.1)
      = ((d.items.map normalizeUris).map (fun p => p.1)).filter isBadNorm :=
    (@List.filter_map (Item × Bool) Item isBadNorm (fun p => p.1)
      (d.items.map normalizeUris)).symm
  rw [h1, h2]
  exact foldl_removeFirst_filter isBadNorm _

lemma find?_update_self {κ β : Type} [DecidableEq κ] (m : List (κ × β)) (k : κ) (v : β)
    (hany : m.any (fun p => p.1 = k) = true) :
    (m.map (fun p => if p.1 = k then (k, v) else p)).find? (fun p => p.1 = k)
      = some (k, v) := by
  induction m with
  | nil => simp at hany
  | cons q m ih =>
    by_cases hq : q.1 = k
    · simp only [List.map_cons, if_pos hq]
      exact List.find?_cons_of_pos _ (by simp)
    · have hany' : m.any (fun p => p.1 = k) = true := by
        simpa [List.any_cons, hq] using hany
      simp only [List.map_cons, if_neg hq]
      rw [List.find?_cons_of_neg _ (by simp [hq])]
      exact ih hany'

lemma find?_update_other {κ β : Type} [DecidableEq κ] (m : List (κ × β)) (kx k : κ)
    (v : β) (hne : kx ≠ k) :
    (m.map (fun p => if p.1 = kx then (kx, v) else p)).find? (fun p => p.1 = k)
      = m.find? (fun p => p.1 = k) := by
  induction m with
  | nil => rfl
  | cons q m ih =>
    by_cases hq : q.1 = kx
    · simp only [List.map_cons, if_pos hq]
      rw [List.find?_cons_of_neg _ (by simp [hne]),
        List.find?_cons_of_neg _ (by simp [hq, hne]), ih]
    · simp only [List.map_cons, if_neg hq]
      by_cases hqk : q.1 = k
      · rw [List.find?_cons_of_pos _ (by simp [hqk]),
          List.find?_cons_of_pos _ (by simp [hqk])]
      · rw [List.find?_cons_of_neg _ (by simp [hqk]),
          List.find?_cons_of_neg _ (by simp [hqk]), ih]

lemma find?_pyDictInsert_self {κ β : Type} [DecidableEq κ] (m : List (κ × β))
    (k : κ) (v : β) :
    (pyDictInsert m k v).find? (fun p => p.1 = k) = some (k, v) := by
  unfold pyDictInsert
  split
  · next hany => exact find?_update_self m k v hany
  · next hany =>
    have h1 : m.find? (fun p => p.1 = k) = none := by
      rw [List.find?_eq_none]
      intro p hp hpk
      exact hany (List.any_eq_true.mpr ⟨p, hp, hpk⟩)
    rw [List.find?_append, h1]
    simp [List.find?]

lemma find?_pyDictInsert_other {κ β : Type} [DecidableEq κ] (m : List (κ × β))
    (kx k : κ) (v : β) (hne : kx ≠ k) :
    (pyDictInsert m kx v).find? (fun p => p.1 = k) = m.find? (fun p => p.1 = k) := by
  unfold pyDictInsert
  split
  · exact find?_update_other m kx k v hne
  · rw [List.find?_append]
    have h2 : List.find? (fun p => p.1 = k) [(kx, v)] = none := by
      simp [List.find?, hne]
    rw [h2, Option.or_none]

lemma pyDict_concat {κ β : Type} [DecidableEq κ] (l : List (κ × β)) (q : κ × β) :
    pyDict (l ++ [q]) = pyDictInsert (pyDict l) q.1 q.2 := by
  unfold pyDict
  rw [List.foldl_append]
  rfl

/-- The central dict-comprehension characterization: looking a key up in
`pyDict l` finds the *last* pair of `l` carrying that key (and that pair
unchanged, value included). -/
lemma pyDict_find? {κ β : Type} [DecidableEq κ] (l : List (κ × β)) (k : κ) :
    (pyDict l).find? (fun p => p.1 = k) = (l.filter (fun p => p.1 = k)).getLast? := by
  induction l using List.reverseRecOn with
  | nil => rfl
  | append_singleton l q ih =>
    rw [pyDict_concat, List.filter_append]
    by_cases hk : q.1 = k
    · rw [show pyDictInsert (pyDict l) q.1 q.2 = pyDictInsert (pyDict l) k q.2 from by
        rw [hk]]
      rw [find?_pyDictInsert_self]
      have hfq : List.filter (fun p => p.1 = k) [q] = [q] := by simp [hk]
      rw [hfq, List.getLast?_concat]
      rw [show ((k, q.2) : κ × β) = q from by rw [← hk]]
    · have hfq : List.filter (fun p => p.1 = k) [q] = [] := by simp [hk]
      rw [find?_pyDictInsert_other (pyDict l) q.1 k q.2 hk, ih, hfq, List.append_nil]

lemma pyDictInsert_keys_nodup {κ β : Type} [DecidableEq κ] (m : List (κ × β))
    (k : κ) (v : β) (h : (m.map (fun p => p.1)).Nodup) :
    ((pyDictInsert m k v).map (fun p => p.1)).Nodup := by
  unfold pyDictInsert
  split
  · have hkeys : ((m.map (fun p => if p.1 = k then (k, v) else p)).map (fun p => p.1))
        = m.map (fun p => p.1) := by
      rw [List.map_map]
      exact List.map_congr_left (fun p _ => by by_cases hp : p.1 = k <;> simp [hp])
    rw [hkeys]
    exact h
  · next hany =>
    have hk : k ∉ m.map (fun p => p.1) := by
      intro hmem
      obtain ⟨p, hp, heq⟩ := List.mem_map.mp hmem
      exact hany (List.any_eq_true.mpr ⟨p, hp, by simp [heq]⟩)
    rw [List.map_append]
    refine List.Nodup.append h (List.nodup_singleton k) ?_
    intro x hx hx'
    simp only [List.map_cons, List.map_nil, List.mem_singleton] at hx'
    subst hx'
    exact hk hx

lemma pyDict_keys_nodup {κ β : Type} [DecidableEq κ] (l : List (κ × β)) :
    ((pyDict l).map (fun p => p.1)).Nodup := by
  suffices h : ∀ m : List (κ × β), (m.map (fun p => p.1)).Nodup →
      ((l.foldl (fun m p => pyDictInsert m p.1 p.2) m).map (fun p => p.1)).Nodup from
    h [] (by simp)
  induction l with
  | nil => exact fun m hm => hm
  | cons q l ih => exact fun m hm => ih _ (pyDictInsert_keys_nodup m q.1 q.2 hm)

lemma pyDictInsert_mem {κ β : Type} [DecidableEq κ] (m : List (κ × β)) (k : κ)
    (v : β) (p : κ × β) (h : p ∈ pyDictInsert m k v) : p ∈ m ∨ p = (k, v) := by
  unfold pyDictInsert at h
  split at h
  · obtain ⟨q, hq, heq⟩ := List.mem_map.mp h
    by_cases hqk : q.1 = k
    · right
      rw [← heq]
      simp [hqk]
    · left
      rw [← heq, if_neg hqk]
      exact hq
  · rcases List.mem_append.mp h with h1 | h2
    · exact Or.inl h1
    · exact Or.inr (by simpa using h2)

lemma pyDict_mem_aux {κ β : Type} [DecidableEq κ] (l : List (κ × β)) :
    ∀ (m : List (κ × β)) (p : κ × β),
      p ∈ l.foldl (fun m q => pyDictInsert m q.1 q.2) m → p ∈ m ∨ p ∈ l := by
  induction l with
  | nil => exact fun m p hm => Or.inl hm
  | cons q l ih =>
    intro m p hm
    rcases ih (pyDictInsert m q.1 q.2) p hm with h1 | h2
    · rcases pyDictInsert_mem m q.1 q.2 p h1 with h3 | h4
      · exact Or.inl h3
      · right
        rw [h4, Prod.mk.eta]
        exact List.mem_cons_self q l
    · exact Or.inr (List.mem_cons_of_mem q h2)

lemma pyDict_mem {κ β : Type} [DecidableEq κ] (l : List (κ × β)) (p : κ × β)
    (h : p ∈ pyDict l) : p ∈ l := by
  rcases pyDict_mem_aux l [] p h with h1 | h2
  · simp at h1
  · exact h2

lemma uriPairs_key (l : List Uri) :
    ∀ p ∈ pyDict (l.map (fun u => (uriKey u, u))), p.1 = uriKey p.2 := by
  intro p hp
  obtain ⟨u, _, rfl⟩ := List.mem_map.mp (pyDict_mem _ p hp)
  rfl

lemma find?_congr_mem {α : Type} (p q : α → Bool) (l : List α)
    (h : ∀ x ∈ l, p x = q x) : l.find? p = l.find? q := by
  induction l with
  | nil => rfl
  | cons x xs ih =>
    have hx := h x (List.mem_cons_self x xs)
    by_cases hq : q x = true
    · rw [List.find?_cons_of_pos _ (hx ▸ hq), List.find?_cons_of_pos _ hq]
    · rw [List.find?_cons_of_neg _ (hx ▸ hq), List.find?_cons_of_neg _ hq]
      exact ih (fun y hy => h y (List.mem_cons_of_mem x hy))

/-- `dedupByUri` keeps, for each `uri` string, exactly the last entry of
the input carrying it. -/
lemma dedupByUri_find? (l : List Uri) (k : Option String) :
    (dedupByUri l).find? (fun u => uriKey u = k)
      = (l.filter (fun u => uriKey u = k)).getLast? := by
  unfold dedupByUri
  rw [List.find?_map]
  rw [find?_congr_mem _ (fun p => p.1 = k) _
    (fun p hp => by simp [Function.comp, uriPairs_key l p hp])]
  rw [pyDict_find?]
  have hfm : (l.map (fun u => (uriKey u, u))).filter (fun p => p.1 = k)
      = (l.filter (fun u => uriKey u = k)).map (fun u => (uriKey u, u)) := by
    have := @List.filter_map Uri ((Option String) × Uri) (fun p => p.1 = k)
      (fun u => (uriKey u, u)) l
    simpa [Function.comp] using this
  rw [hfm, List.getLast?_map]
  cases (l.filter (fun u => uriKey u = k)).getLast? <;> simp

lemma dedupByUri_keys_nodup (l : List Uri) : ((dedupByUri l).map uriKey).Nodup := by
  unfold dedupByUri
  rw [List.map_map]
  rw [show ((pyDict (l.map (fun u => (uriKey u, u)))).map (uriKey ∘ (fun p => p.2)))
      = (pyDict (l.map (fun u => (uriKey u, u)))).map (fun p => p.1) from
    List.map_congr_left (fun p hp => (uriPairs_key l p hp).symm)]
  exact pyDict_keys_nodup _

/-- When a key occurs in the right half of a concatenation, the entry
`dedupByUri` keeps for it comes from the right half. -/
lemma dedupByUri_append_right (ua ub : List Uri) (k : Option String)
    (hub : ∃ u ∈ ub, uriKey u = k) :
    ∀ u, (dedupByUri (ua ++ ub)).find? (fun x => uriKey x = k) = some u → u ∈ ub := by
  intro u hu
  rw [dedupByUri_find?, List.filter_append, List.getLast?_append] at hu
  obtain ⟨w, hw, hwk⟩ := hub
  have hne : ub.filter (fun x => uriKey x = k) ≠ [] := fun heq => by
    have hwf : w ∈ ub.filter (fun x => uriKey x = k) :=
      List.mem_filter.mpr ⟨hw, by simp [hwk]⟩
    rw [heq] at hwf
    simp at hwf
  obtain ⟨v, hv⟩ := Option.isSome_iff_exists.mp (List.getLast?_isSome.mpr hne)
  rw [hv] at hu
  have huv : v = u := by simpa [Option.or] using hu
  exact huv ▸ List.mem_of_mem_filter (List.mem_of_getLast?_eq_some hv)

lemma uriStringsOf_ok (us : List Uri) (hall : ∀ u ∈ us, u.uri ≠ none) :
    ∃ vs, uriStringsOf us = Res.ok vs := by
  induction us with
  | nil => exact ⟨[], rfl⟩
  | cons u ut ih =>
    obtain ⟨vs, hvs⟩ := ih (fun w hw => hall w (List.mem_cons_of_mem u hw))
    cases hu : u.uri with
    | none => exact absurd hu (hall u (List.mem_cons_self u ut))
    | some v => exact ⟨v :: vs, by simp [uriStringsOf, hu, hvs]⟩

lemma mem_setAdd_self (reg : List String) (id : String) : id ∈ setAdd reg id := by
  unfold setAdd
  split
  · assumption
  · simp

/-- A confirmed, non-skipped merge on well-formed URI lists computes
exactly the write of line 77 and the registry add of line 79. -/
lemma mergeUris_confirmed (reg : List String) (a b : Item) (la lb : Login)
    (ua ub : List Uri)
    (hskipa : a.id ∉ reg) (hskipb : b.id ∉ reg)
    (hla : a.login = some la) (hua : la.uris = some ua)
    (hra : ∀ u ∈ ua, u.uri ≠ none)
    (hlb : b.login = some lb) (hub : lb.uris = some ub)
    (hrb : ∀ u ∈ ub, u.uri ≠ none) :
    mergeUris reg true a b =
      Res.ok ⟨{ a with login := some { la with uris := some (dedupByUri (ua ++ ub)) } },
              setAdd reg b.id, true⟩ := by
  obtain ⟨va, hva⟩ := uriStringsOf_ok ua hra
  obtain ⟨vb, hvb⟩ := uriStringsOf_ok ub hrb
  have hcond : ¬(a.id ∈ reg ∨ b.id ∈ reg) := by simp [hskipa, hskipb]
  simp [mergeUris, readUriStrings, hla, hua, hlb, hub, hva, hvb, hcond]

/-! ### Claims settled by concrete evaluation -/

/-- C1: the claim says an item with no `login` field is left untouched
by the passwordless filter and no error is raised.  The code's condition
(line 26) parses as `("login" in item and ...) or ("password" not in item["login"])`,
so for such an item the right disjunct evaluates `item["login"]` and
raises KeyError: the filter aborts instead of leaving the item alone. -/
theorem passwordless_no_login_raises :
    remove_passwordless_item ⟨[noteItem]⟩ = Res.exn := by decide

/-- C2: the claim says an item whose `login` lacks the `username` key is
removed without raising.  The code (line 17) evaluates
`item["login"]["username"]` before the `"username" not in` guard, so the
access raises KeyError and the filter aborts. -/
theorem userless_missing_username_key_raises :
    remove_userless_item ⟨[noUsernameKeyItem]⟩ = Res.exn := by decide

/-- C5: the claim says the output of the filter stage is a fixed point
of the filter stage.  On a document with two adjacent username-less
items, the first pass removes only the first one (removing during
iteration skips the element that slides into the current slot), so the
second pass removes another item: the output is not a fixed point. -/
theorem filter_stage_not_idempotent :
    filterStage idemDoc = Res.ok idemDoc1 ∧
    filterStage idemDoc1 = Res.ok ⟨[]⟩ ∧
    idemDoc1.items.length = 1 := by decide

/-- C4 counterexample: the claim says a pair is excluded only when the
two items are the very same object.  `item != other_item` (line 57) is
*value* inequality on Python dicts, so the two structurally identical
items sitting at the two distinct positions of `dupDoc` — which agree on
first URI, username and password, as recorded — produce no pair at all. -/
theorem find_duplicates_misses_identical_items :
    dupDoc.items.length = 2 ∧
    dupDoc.items.get? 0 = some dupX ∧
    dupDoc.items.get? 1 = some dupX ∧
    firstUri dupX = Res.ok (some "https://x.com") ∧
    getUsername dupX = Res.ok (some "u") ∧
    getPassword dupX = Res.ok (some "p") ∧
    (find_items_with_duplicates dupDoc).1 = Res.ok [] := by decide

/-- C6 counterexample: the claim says that for a URI string present in
both lists the *first* occurrence (A's copy) is retained.  Merging
`cexA` (entry with `matchType 1`) and `cexB` (same URI string,
`matchType 2`) keeps B's copy: the dict comprehension of line 76 is
last-write-wins on values. -/
theorem merge_retains_b_copy :
    mergeUris [] true cexA cexB =
      Res.ok ⟨⟨"a", "A", some ⟨some (some "u"), some (some "p"),
        some [⟨some (some "https://x.com"), some 2⟩]⟩⟩, ["b"], true⟩ ∧
    (⟨some (some "https://x.com"), some 2⟩ : Uri) ≠
      ⟨some (some "https://x.com"), some 1⟩ := by decide

/-- C10: `find_items_with_duplicates` is a pure query: its body is a
single list comprehension that assigns to nothing, so the document after
the call is exactly the document before it (despite the docstring's
"Remove duplicate items"). -/
theorem find_duplicates_leaves_document_unchanged (d : Document) :
    (find_items_with_duplicates d).2 = d := rfl

/-- C7: when the confirmation collaborator answers "no", a
merge-resolver call mutates nothing: whenever the call returns normally
the document is exactly as before (so A and B are unmodified) and the
merge registry is exactly as before (so B.id was not added). When the
call raises instead (malformed URI lists), the exception occurs before
any assignment, so nothing was mutated either — the embedding makes that
visible by returning no document at all in that case. -/
theorem merge_declined_no_mutation (d : Document) (i j : Nat) (reg : List String)
    (d' : Document) (reg' : List String) (pr : Bool)
    (h : mergeStepDoc d i j reg false = Res.ok (d', reg', pr)) :
    d' = d ∧ reg' = reg := by
  unfold mergeStepDoc at h
  split at h
  · next a b hi hj =>
    split at h
    · exact absurd h (by simp)
    · next r heq =>
      obtain ⟨hA, hR⟩ := mergeUris_false_frame reg a b r heq
      cases h
      refine ⟨?_, hR⟩
      have : d.items.set i r.itemA = d.items := hA ▸ set_get?_self d.items i a hi
      cases d
      simpa using this
  · exact absurd h (by simp)

/-- Witness for C7 at a concrete declined merge. -/
theorem merge_declined_no_mutation_witness :
    (⟨[cexA, cexB]⟩ : Document) = ⟨[cexA, cexB]⟩ ∧ ([] : List String) = [] :=
  merge_declined_no_mutation ⟨[cexA, cexB]⟩ 0 1 [] ⟨[cexA, cexB]⟩ [] true (by decide)

/-- C8: the registry only grows across a pipeline run's sequence of
merge-resolver invocations, so once `id` is registered, any later
invocation whose A.id or B.id equals `id` hits the guard of line 66 and
is a silent no-op: no prompt is shown (`prompted = false`), the item and
the registry come back unchanged, and no exception is possible. -/
theorem merge_registry_permanent_skip (reg : List String)
    (calls : List (Item × Item × Bool)) (id : String) (a b : Item) (ans : Bool)
    (hid : id ∈ reg) (hab : a.id = id ∨ b.id = id) :
    id ∈ runMerges reg calls ∧
    mergeUris (runMerges reg calls) ans a b =
      Res.ok ⟨a, runMerges reg calls, false⟩ := by
  have h1 : id ∈ runMerges reg calls := runMerges_mono calls reg hid
  refine ⟨h1, ?_⟩
  unfold mergeUris
  have hcond : a.id ∈ runMerges reg calls ∨ b.id ∈ runMerges reg calls := by
    cases hab with
    | inl h => exact Or.inl (h ▸ h1)
    | inr h => exact Or.inr (h ▸ h1)
  rw [if_pos hcond]

/-- Witness for C8: after an intervening (confirmed) call, a pair whose
B-side id `"b"` is already registered is skipped without a prompt. -/
theorem merge_registry_permanent_skip_witness :
    "b" ∈ runMerges ["b"] [(cexA, cexB, true)] ∧
    mergeUris (runMerges ["b"] [(cexA, cexB, true)]) true cexB cexA =
      Res.ok ⟨cexB, runMerges ["b"] [(cexA, cexB, true)], false⟩ :=
  merge_registry_permanent_skip ["b"] [(cexA, cexB, true)] "b" cexB cexA true
    (by decide) (Or.inl rfl)

/-- C9: every item surviving the uriless filter has a `login` whose
`uris` list is present, non-empty, and made of entries whose `uri`
string is present and non-empty (`uriTruthy`).  Survivors are exactly
the items whose normalized URI list (entries with truthy `uri` only) is
non-empty, and normalization wrote that list back. -/
theorem uriless_invariant (d : Document) (item : Item)
    (h : item ∈ (remove_uriless_item d).items) :
    ∃ lg us, item.login = some lg ∧ lg.uris = some us ∧ us ≠ [] ∧
      ∀ u ∈ us, uriTruthy u = true := by
  rw [remove_uriless_eq] at h
  obtain ⟨hmem, hgood⟩ := List.mem_filter.mp h
  obtain ⟨p, hp, rfl⟩ := List.mem_map.mp hmem
  obtain ⟨orig, _, rfl⟩ := List.mem_map.mp hp
  exact normalize_good orig (by simpa using hgood)

/-- Witness for C9 on a one-item document that survives the filter. -/
theorem uriless_invariant_witness :
    dupX ∈ (remove_uriless_item ⟨[dupX]⟩).items ∧
    ∃ lg us, dupX.login = some lg ∧ lg.uris = some us ∧ us ≠ [] ∧
      ∀ u ∈ us, uriTruthy u = true :=
  ⟨by decide, uriless_invariant ⟨[dupX]⟩ dupX (by decide)⟩

/-- C4 (amended): whenever every item of the document is comparable, the
finder returns normally, and any two value-unequal items agreeing on
first-URI string, username and password are reported as both ordered
pairs. -/
theorem find_duplicates_reports_unequal_matches (d : Document) (a b : Item)
    (hall : ∀ it ∈ d.items, comparableItem it = true)
    (ha : a ∈ d.items) (hb : b ∈ d.items) (hne : a ≠ b)
    (hf : firstUri a = firstUri b) (hu : getUsername a = getUsername b)
    (hp : getPassword a = getPassword b) :
    ∃ L, (find_items_with_duplicates d).1 = Res.ok L ∧ (a, b) ∈ L ∧ (b, a) ∈ L := by
  have hexn : ∀ q ∈ allPairs d.items, pairCond q.1 q.2 ≠ Res.exn := by
    intro q hq
    obtain ⟨x, hx, hq2⟩ := List.mem_flatMap.mp hq
    obtain ⟨y, hy, rfl⟩ := List.mem_map.mp hq2
    exact pairCond_ne_exn x y (hall x hx) (hall y hy)
  obtain ⟨L, hL, hmem⟩ := filterRes_ok_mem (fun q => pairCond q.1 q.2) (allPairs d.items) hexn
  obtain ⟨⟨fa, hfa⟩, ⟨na, hna⟩, ⟨pa, hpa⟩⟩ := comparable_destruct a (hall a ha)
  have hfb : firstUri b = Res.ok fa := hf ▸ hfa
  have hnb : getUsername b = Res.ok na := hu ▸ hna
  have hpb : getPassword b = Res.ok pa := hp ▸ hpa
  refine ⟨L, hL, ?_, ?_⟩
  · exact hmem (a, b) (mem_allPairs d.items a b ha hb)
      (pairCond_eq_true a b hne fa na pa hfa hfb hna hnb hpa hpb)
  · exact hmem (b, a) (mem_allPairs d.items b a hb ha)
      (pairCond_eq_true b a (Ne.symm hne) fa na pa hfb hfa hnb hna hpb hpa)

/-- Witness for the amended C4 on two value-unequal matching items. -/
theorem find_duplicates_reports_unequal_matches_witness :
    ∃ L, (find_items_with_duplicates ⟨[dupX, dupY]⟩).1 = Res.ok L ∧
      (dupX, dupY) ∈ L ∧ (dupY, dupX) ∈ L :=
  find_duplicates_reports_unequal_matches ⟨[dupX, dupY]⟩ dupX dupY (by decide)
    (by decide) (by decide) (by decide) (by decide) (by decide) (by decide)

/-- C3: a confirmed (yes-answered), non-skipped merge of the pair at
positions `i ≠ j` assigns to A's `uris` the concatenation of A's prior
entries followed by B's, deduplicated by `uri` string; B's id enters the
merge registry; B keeps its place in the item list and the list keeps
its length; and for every `uri` string occurring in both lists the
kept entry is one of B's (last-occurrence-wins, `dedupByUri_find?`). -/
theorem merge_confirmed_doc (d : Document) (i j : Nat) (a b : Item) (la lb : Login)
    (ua ub : List Uri) (reg : List String)
    (hi : d.items.get? i = some a) (hj : d.items.get? j = some b) (hij : i ≠ j)
    (hskipa : a.id ∉ reg) (hskipb : b.id ∉ reg)
    (hla : a.login = some la) (hua : la.uris = some ua)
    (hra : ∀ u ∈ ua, u.uri ≠ none)
    (hlb : b.login = some lb) (hub : lb.uris = some ub)
    (hrb : ∀ u ∈ ub, u.uri ≠ none) :
    mergeStepDoc d i j reg true =
      Res.ok (⟨d.items.set i { a with login := some { la with
          uris := some (dedupByUri (ua ++ ub)) } }⟩, setAdd reg b.id, true) ∧
    b.id ∈ setAdd reg b.id ∧
    (d.items.set i { a with login := some { la with
        uris := some (dedupByUri (ua ++ ub)) } }).get? j = some b ∧
    (d.items.set i { a with login := some { la with
        uris := some (dedupByUri (ua ++ ub)) } }).length = d.items.length ∧
    (∀ k, (∃ u ∈ ua, uriKey u = k) → (∃ u ∈ ub, uriKey u = k) →
      ∀ u, (dedupByUri (ua ++ ub)).find? (fun x => uriKey x = k) = some u → u ∈ ub) := by
  have hm := mergeUris_confirmed reg a b la lb ua ub hskipa hskipb hla hua hra hlb hub hrb
  refine ⟨?_, mem_setAdd_self reg b.id, ?_, List.length_set _ _ _, ?_⟩
  · simp only [mergeStepDoc, hi, hj, hm]
  · exact (List.get?_set_ne _ _ hij).trans hj
  · intro k _ hkb u hu
    exact dedupByUri_append_right ua ub k hkb u hu

/-- Witness for C3 on a two-item document, with the B-wins clause read
off at the shared URI string. -/
theorem merge_confirmed_doc_witness :
    (mergeStepDoc ⟨[cexA, cexB]⟩ 0 1 [] true =
      Res.ok (⟨[cexA, cexB].set 0 { cexA with login := some { cexLa with
          uris := some (dedupByUri (cexUa ++ cexUb)) } }⟩, setAdd [] cexB.id, true)) ∧
    cexB.id ∈ setAdd [] cexB.id ∧
    ([cexA, cexB].set 0 { cexA with login := some { cexLa with
        uris := some (dedupByUri (cexUa ++ cexUb)) } }).get? 1 = some cexB ∧
    ([cexA, cexB].set 0 { cexA with login := some { cexLa with
        uris := some (dedupByUri (cexUa ++ cexUb)) } }).length
      = ([cexA, cexB] : List Item).length ∧
    (⟨some (some "https://x.com"), some 2⟩ : Uri) ∈ cexUb :=
  have h := merge_confirmed_doc ⟨[cexA, cexB]⟩ 0 1 cexA cexB cexLa cexLb cexUa cexUb []
    rfl rfl (by decide) (by simp) (by simp) rfl rfl (by decide) rfl rfl (by decide)
  ⟨h.1, h.2.1, h.2.2.1, h.2.2.2.1,
   h.2.2.2.2 (some "https://x.com")
     ⟨⟨some (some "https://x.com"), some 1⟩, by decide, rfl⟩
     ⟨⟨some (some "https://x.com"), some 2⟩, by decide, rfl⟩
     ⟨some (some "https://x.com"), some 2⟩ (by decide)⟩

/-- C6 (amended): after a confirmed merge, A's `uris` is the union of
A's and B's prior URI entries deduplicated by `uri` string with no
duplicate `uri` strings, and for an entry whose `uri` string carries
conflicting attributes the *last* occurrence of the concatenation —
B's copy, not A's — is the one retained. -/
theorem merge_dedup_no_dup_last_wins (reg : List String) (a b : Item)
    (la lb : Login) (ua ub : List Uri)
    (hskipa : a.id ∉ reg) (hskipb : b.id ∉ reg)
    (hla : a.login = some la) (hua : la.uris = some ua)
    (hra : ∀ u ∈ ua, u.uri ≠ none)
    (hlb : b.login = some lb) (hub : lb.uris = some ub)
    (hrb : ∀ u ∈ ub, u.uri ≠ none) :
    mergeUris reg true a b =
      Res.ok ⟨{ a with login := some { la with
          uris := some (dedupByUri (ua ++ ub)) } }, setAdd reg b.id, true⟩ ∧
    ((dedupByUri (ua ++ ub)).map uriKey).Nodup ∧
    ∀ k, (dedupByUri (ua ++ ub)).find? (fun u => uriKey u = k)
        = ((ua ++ ub).filter (fun u => uriKey u = k)).getLast? :=
  ⟨mergeUris_confirmed reg a b la lb ua ub hskipa hskipb hla hua hra hlb hub hrb,
   dedupByUri_keys_nodup _, fun k => dedupByUri_find? _ k⟩

/-- Witness for the amended C6, with the last-wins clause read off at
the shared URI string. -/
theorem merge_dedup_no_dup_last_wins_witness :
    (mergeUris [] true cexA cexB =
      Res.ok ⟨{ cexA with login := some { cexLa with
          uris := some (dedupByUri (cexUa ++ cexUb)) } }, setAdd [] cexB.id, true⟩) ∧
    ((dedupByUri (cexUa ++ cexUb)).map uriKey).Nodup ∧
    ((dedupByUri (cexUa ++ cexUb)).find? (fun u => uriKey u = some "https://x.com")
        = ((cexUa ++ cexUb).filter (fun u => uriKey u = some "https://x.com")).getLast?) :=
  have h := merge_dedup_no_dup_last_wins [] cexA cexB cexLa cexLb cexUa cexUb
    (by simp) (by simp) rfl rfl (by decide) rfl rfl (by decide)
  ⟨h.1, h.2.1, h.2.2 (some "https://x.com")⟩

end VaultChecker
